import Mathlib

/-!
Verification of the "hell" complexity analyzer.

The development shallowly embeds the two source files of the repository:

* the `Context` class (scope records): constructor fields `node`, `parent`,
  `children`, `_score`, `_depth`, and the methods `add`, `depth`, `score`,
  `location`, `root`, `signature`, `main`, `named`, `vardec`, `assignment`;
* the `Analyzer` class: the weight table `score`, the scope-opening type
  list `contexts`, the dispatch `process` with its `addBranch`, `addCase`,
  `addIf`, `addLogical`, `addCall`, `addFn` helpers, and the estraverse
  walk `traverse` / `analyze` with its context stack.

JavaScript numbers are embedded as `Int` (all weights are small integers),
JavaScript truthiness of the strings flowing through signature resolution
is made explicit, and the places where the JavaScript would throw a
`TypeError` (reading a field of `undefined`) are embedded as `Except`.
-/

/-- AST node type tags, corresponding to the string constants the analyzer
compares `node.type` against.  `undef` stands for an absent `type` field;
`other` covers every remaining tag, none of which the analyzer matches. -/
inductive NType where
  | Program
  | FunctionDeclaration
  | FunctionExpression
  | CallExpression
  | IfStatement
  | SwitchCase
  | LogicalExpression
  | CatchClause
  | ConditionalExpression
  | DoWhileStatement
  | ForStatement
  | ForInStatement
  | WhileStatement
  | VariableDeclarator
  | AssignmentExpression
  | MemberExpression
  | Identifier
  | Literal
  | undef
  | other (tag : String)
deriving DecidableEq, Repr

/-- A JavaScript literal value in a member-expression property position,
as read by the assignment-signature rule (`a["x"]` or `a[0]`). -/
inductive JsVal where
  | str (s : String)
  | num (n : Int)
deriving DecidableEq, Repr

/-- JavaScript truthiness of a literal value. -/
def JsVal.truthy : JsVal → Bool
  | .str s => s ≠ ""
  | .num n => n ≠ 0

/-- String conversion applied when `Array.prototype.join` meets the value. -/
def JsVal.toStr : JsVal → String
  | .str s => s
  | .num n => toString n

/-- JavaScript truthiness of an optional string: `undefined` and the empty
string are falsy. -/
def strTruthy : Option String → Bool
  | some s => s ≠ ""
  | none => false

/-- Array.prototype.join with separator ".": an `undefined` entry renders
as the empty string. -/
def jsJoin (l : List (Option String)) : String :=
  String.intercalate "." (l.map (fun o => o.getD ""))

/-- The property slot of a member expression: an identifier carries a
`name`, a literal carries a `value`; a malformed node may carry neither. -/
structure MemberProp where
  name : Option String := none
  value : Option JsVal := none
deriving DecidableEq, Repr

/-- A node in the object position of a member-access chain, as far as
`Context.prototype.assignment` inspects it: either a further
`MemberExpression` (with `object` and `property` fields) or any other
node, of which only the `name` field is read. -/
inductive MemberTree where
  | leaf (name : Option String)
  | member (object : MemberTree) (property : MemberProp)
deriving DecidableEq, Repr

/-- The `left` field of an assignment expression: a node with an optional
`name` field (an identifier target) or a member expression. -/
inductive AssignTarget where
  | plain (name : Option String)
  | member (object : MemberTree) (property : MemberProp)
deriving DecidableEq, Repr

/-- The `id` field of a function or variable-declarator node: an
identifier node of which only `name` is read; on malformed input the name
itself may be absent. -/
structure IdField where
  name : Option String := none
deriving DecidableEq, Repr

/-- The fields of an AST node that the analyzer and the contexts read.
`alternate` records whether an if-statement carries an alternate branch
(the branch node itself is also among the children); `consequentLen` is
the length of a switch-case consequent list; `operator` belongs to
logical expressions; `left` is the target of an assignment expression;
`line` is the starting line (`loc.start.line`); `context` is the marker
field the traversal writes onto scope-defining nodes, `false` everywhere
on a freshly parsed tree. -/
structure NodeData where
  ntype : NType := .undef
  id : Option IdField := none
  alternate : Bool := false
  consequentLen : Nat := 0
  operator : Option String := none
  left : Option AssignTarget := none
  line : Nat := 0
  context : Bool := false
deriving DecidableEq, Repr

/-- An AST node: the fields the analyzer reads plus the child nodes in
estraverse visiting order. -/
inductive JNode where
  | mk (data : NodeData) (children : List JNode)

/-- Field data of a node. -/
def JNode.data : JNode → NodeData
  | .mk d _ => d

/-- Child nodes in visiting order. -/
def JNode.children : JNode → List JNode
  | .mk _ cs => cs

/-- A scope record (`Context` in the source): the node that opened the
scope, the syntactic parent of that node, the child records, the
accumulated local score (`_score`) and the nesting depth (`_depth`). -/
inductive Context where
  | mk (node : NodeData) (parent : Option NodeData) (children : List Context)
      (localScore : Int) (depthVal : Nat)

/-- The node that opened the scope. -/
def Context.node : Context → NodeData
  | .mk n _ _ _ _ => n

/-- The syntactic parent node of the scope-opening node. -/
def Context.parent : Context → Option NodeData
  | .mk _ p _ _ _ => p

/-- Child scope records in entry order. -/
def Context.children : Context → List Context
  | .mk _ _ cs _ _ => cs

/-- The accumulated local score (`_score`). -/
def Context.localScore : Context → Int
  | .mk _ _ _ s _ => s

/-- The stored nesting level (`_depth`). -/
def Context.depthVal : Context → Nat
  | .mk _ _ _ _ d => d

/-- Context.prototype.add: adds `num` to the local score. -/
def Context.add (c : Context) (num : Int) : Context :=
  .mk c.node c.parent c.children (c.localScore + num) c.depthVal

/-- Context.prototype.depth: returns the stored nesting level. -/
def Context.depth (c : Context) : Nat := c.depthVal

mutual
/-- Context.prototype.score:
`children.map(score).reduce(plus, this._score)`. -/
def Context.score : Context → Int
  | .mk _ _ children s _ => (Context.scoreMap children).foldl (· + ·) s

/-- The `children.map(child.score())` list inside Context.prototype.score. -/
def Context.scoreMap : List Context → List Int
  | [] => []
  | c :: cs => Context.score c :: Context.scoreMap cs
end

/-- Context.prototype.root: whether the scope-opening node is the Program. -/
def Context.root (c : Context) : Bool := c.node.ntype = .Program

/-- Context.prototype.location: 0 for the Program scope, otherwise the
starting line of the node. -/
def Context.location (c : Context) : Nat :=
  if c.root then 0 else c.node.line

/-- Context.prototype.main: the fixed name of the Program scope. -/
def Context.main (c : Context) : Option String :=
  if c.node.ntype = .Program then some "*" else none

/-- Context.prototype.named: the declared function name; absent when the
node has no `id` or the id has no truthy `name`. -/
def Context.named (c : Context) : Option String :=
  match c.node.id with
  | none => none
  | some i => if strTruthy i.name then i.name else none

/-- Context.prototype.vardec: the name of the variable the parent
declarator initializes.  Reading `type` of an absent parent, or `name` of
an absent `id`, is a TypeError. -/
def Context.vardec (c : Context) : Except String (Option String) :=
  match c.parent with
  | none => .error "TypeError"
  | some p =>
    if p.ntype ≠ .VariableDeclarator then .ok none
    else
      match p.id with
      | none => .error "TypeError"
      | some i => .ok i.name

/-- The entry pushed for one member segment inside the `search` closure:
`obj.property.name || obj.property.value || "?"` under JavaScript
truthiness, stringified as `Array.prototype.join` would. -/
def propEntry (p : MemberProp) : String :=
  if strTruthy p.name then p.name.getD ""
  else
    match p.value with
    | some v => if v.truthy then v.toStr else "?"
    | none => "?"

/-- The `search` closure of Context.prototype.assignment, applied to the
object side of a member expression: it recurses while the object is
itself a member expression, otherwise pushes the object node's `name`,
then pushes the property entry on the way back out. -/
def search : MemberTree → List (Option String)
  | .leaf name => [name]
  | .member o p => search o ++ [some (propEntry p)]

/-- Context.prototype.assignment: the name derived from an assignment
target.  A truthy `left.name` is returned directly; otherwise the member
chain is unwound by `search` and joined with ".".  Reading a field of an
absent parent or absent `left` is a TypeError, as is unwinding a
nameless target that is not a member expression (its `object` field is
`undefined`). -/
def Context.assignment (c : Context) : Except String (Option String) :=
  match c.parent with
  | none => .error "TypeError"
  | some p =>
    if p.ntype ≠ .AssignmentExpression then .ok none
    else
      match p.left with
      | none => .error "TypeError"
      | some (.plain name) =>
        if strTruthy name then .ok name else .error "TypeError"
      | some (.member o pr) =>
        .ok (some (jsJoin (search o ++ [some (propEntry pr)])))

/-- Context.prototype.signature: the first truthy result of `main`,
`named`, `vardec`, `assignment`, and finally the string "anonymous"; a
TypeError raised by a step propagates. -/
def Context.signature (c : Context) : Except String String :=
  if strTruthy c.main then .ok (c.main.getD "")
  else if strTruthy c.named then .ok (c.named.getD "")
  else
    match c.vardec with
    | .error e => .error e
    | .ok v =>
      if strTruthy v then .ok (v.getD "")
      else
        match c.assignment with
        | .error e => .error e
        | .ok a =>
          if strTruthy a then .ok (a.getD "")
          else .ok "anonymous"

namespace Analyzer

/-- The weight table built in the Analyzer constructor (`this.score`). -/
structure ScoreWeights where
  branch : Int
  branchEmpty : Int
  fn : Int
  call : Int
deriving DecidableEq, Repr

/-- The fixed weights: branch 10, branchEmpty 1, fn 3, call 1. -/
def score : ScoreWeights :=
  { branch := 10, branchEmpty := 1, fn := 3, call := 1 }

/-- The scope-opening node types (`this.contexts`). -/
def contexts : List NType :=
  [.FunctionExpression, .FunctionDeclaration, .Program]

/-- Whether a node type opens a new context
(`this.contexts.indexOf(node.type) > -1`). -/
def isContext (t : NType) : Bool := contexts.contains t

/-- Analyzer.prototype.addBranch: the amount added for a plain branch. -/
def addBranch : Int := score.branch

/-- Analyzer.prototype.addCase: the branch weight for a switch case with a
nonempty consequent list, the branchEmpty weight otherwise. -/
def addCase (consequentLen : Nat) : Int :=
  if consequentLen ≠ 0 then score.branch else score.branchEmpty

/-- Analyzer.prototype.addIf: the branch weight, preceded by the branch
weight once more when an alternate branch is present. -/
def addIf (alternate : Bool) : Int :=
  (if alternate then score.branch else 0) + score.branch

/-- Analyzer.prototype.addLogical: the branch weight exactly when the
operator is the logical OR. -/
def addLogical (operator : Option String) : Int :=
  if operator = some "||" then score.branch else 0

/-- Analyzer.prototype.addCall: the amount added for a call expression. -/
def addCall : Int := score.call

/-- Analyzer.prototype.addFn: the amount added for a function node. -/
def addFn : Int := score.fn

/-- Analyzer.prototype.process: the amount the visited node adds to the
active context's local score; node types outside the switch add nothing. -/
def process (d : NodeData) : Int :=
  match d.ntype with
  | .FunctionExpression | .FunctionDeclaration => addFn
  | .CallExpression => addCall
  | .IfStatement => addIf d.alternate
  | .SwitchCase => addCase d.consequentLen
  | .LogicalExpression => addLogical d.operator
  | .CatchClause | .ConditionalExpression | .DoWhileStatement
  | .ForStatement | .ForInStatement | .WhileStatement => addBranch
  | _ => 0

mutual
/-- Effect of the estraverse enter/leave callbacks on the subtree rooted
at one node, while the record on top of the stack is active.  The node is
first dispatched to `process` (that amount lands in the still-active
enclosing record), then, if scope-defining, marked with `context := true`
and pushed as a new record whose own local score collects the amounts of
the subtree below it.  Arguments: the node, the syntactic parent
estraverse passes to `enter`, and the current stack length `L` (the depth
a record created here receives).  Result components: the total amount
added to the active record's local score, the child records appended to
the active record's `children`, the records handed to the collector
(`source.add`) in creation order, and the node as the traversal leaves
it. -/
def traverseNode (n : JNode) (parent : Option NodeData) (L : Nat) :
    Int × List Context × List Context × JNode :=
  match n with
  | .mk d cs =>
    if isContext d.ntype then
      let r := traverseList cs (some d) (L + 1)
      let d2 := { d with context := true }
      let c := Context.mk d2 parent r.2.1 r.1 L
      (process d, [c], c :: r.2.2.1, .mk d2 r.2.2.2)
    else
      let r := traverseList cs (some d) L
      (process d + r.1, r.2.1, r.2.2.1, .mk d r.2.2.2)

/-- Pointwise traversal of a sibling list, concatenating the score
amounts, child records, collected records and traversed nodes. -/
def traverseList (ns : List JNode) (parent : Option NodeData) (L : Nat) :
    Int × List Context × List Context × List JNode :=
  match ns with
  | [] => (0, [], [], [])
  | n :: rest =>
    let a := traverseNode n parent L
    let b := traverseList rest parent L
    (a.1 + b.1, a.2.1 ++ b.2.1, a.2.2.1 ++ b.2.2.1, a.2.2.2 :: b.2.2.2)
end

/-- Analyzer.prototype.analyze composed with Analyzer.prototype.traverse:
the stack is reset and the tree walked; an absent tree returns before
estraverse runs.  The result models the observable effects: the records
handed to the collector (`source.add`) in creation order, and the tree as
the walk leaves it.  The tree is assumed freshly parsed (every `context`
field `false`), which is the state in which the source-file collaborator
hands it over.  When the root is not a scope-defining node, the source
raises a TypeError on the first scoring node visited while the stack is
empty (`this.context()` is `undefined`) and aborts mid-walk; that error
path is not modeled — the top-level amount is discarded instead — so
results are read only on absent or Program-rooted trees, where `process`
adds nothing before the root record is pushed and the stack is never
empty afterwards. -/
def analyze : Option JNode → List Context × Option JNode
  | none => ([], none)
  | some root =>
    let r := traverseNode root none 0
    (r.2.2.1, some r.2.2.2)

/-- The records handed to the collector by one run, in creation order. -/
def analyzeRecords (t : Option JNode) : List Context := (analyze t).1

/-- The input tree as one run leaves it. -/
def analyzeTree (t : Option JNode) : Option JNode := (analyze t).2

end Analyzer

mutual
/-- Modelled from the claim wording (frame effect): set `context := true`
on every scope-defining node of the tree and leave every other field of
every node unchanged. -/
def specMark : JNode → JNode
  | .mk d cs =>
    .mk (if Analyzer.isContext d.ntype then { d with context := true } else d)
      (specMarkList cs)

/-- Pointwise `specMark` over a sibling list. -/
def specMarkList : List JNode → List JNode
  | [] => []
  | n :: ns => specMark n :: specMarkList ns
end

/-- The name of the leftmost (base) object node of a member chain. -/
def chainBase : MemberTree → Option String
  | .leaf name => name
  | .member o _ => chainBase o

/-- The property segments of a member chain, leftmost first. -/
def chainProps : MemberTree → List MemberProp
  | .leaf _ => []
  | .member o p => chainProps o ++ [p]

/-- Modelled from the claim wording: one segment of the dotted path
contributes its property name, or else its literal value, or else "?"
when neither is present. -/
def specSegment (p : MemberProp) : String :=
  match p.name with
  | some nm => nm
  | none =>
    match p.value with
    | some v => v.toStr
    | none => "?"

/-- Modelled from the claim wording: the dotted path over an assignment
target member chain, base object first, then every property segment via
`specSegment`, joined with ".". -/
def specPath (o : MemberTree) (p : MemberProp) : String :=
  jsJoin (chainBase o :: (chainProps o ++ [p]).map (fun q => some (specSegment q)))

/-- Modelled from the amended claim: the dotted path over an assignment
target member chain where each segment falls back from name to literal
value to "?" under JavaScript truthiness (as `propEntry` does). -/
def specPathT (o : MemberTree) (p : MemberProp) : String :=
  jsJoin (chainBase o :: (chainProps o ++ [p]).map (fun q => some (propEntry q)))

/-- A bare identifier node (scores nothing, opens no scope). -/
def identN : JNode := .mk { ntype := .Identifier } []

/-- A block-statement node wrapping the given statements. -/
def blockN (ss : List JNode) : JNode := .mk { ntype := .other "BlockStatement" } ss

/-- An expression-statement node wrapping the given expression. -/
def exprStmt (e : JNode) : JNode := .mk { ntype := .other "ExpressionStatement" } [e]

/-- A call expression with an identifier callee. -/
def callN : JNode := .mk { ntype := .CallExpression } [identN]

/-- The if/else statement of the C2 example, with both branches present:
`if (a) { bar(); } else { baz(); }`. -/
def c2If : JNode :=
  .mk { ntype := .IfStatement, alternate := true }
    [identN, blockN [exprStmt callN], blockN [exprStmt callN]]

/-- The function declaration `function foo() { if (a) { bar(); } else { baz(); } }`. -/
def c2Foo : JNode :=
  .mk { ntype := .FunctionDeclaration, id := some { name := some "foo" } }
    [identN, blockN [c2If]]

/-- The program root of the C2 example. -/
def c2Program : JNode := .mk { ntype := .Program } [c2Foo]

/-- The logical expression `a || b`. -/
def c5Logical : JNode :=
  .mk { ntype := .LogicalExpression, operator := some "||" } [identN, identN]

/-- The anonymous function expression `function() { return a || b; }`. -/
def c5Fn : JNode :=
  .mk { ntype := .FunctionExpression }
    [blockN [.mk { ntype := .other "ReturnStatement" } [c5Logical]]]

/-- The declarator `x = function() { return a || b; }`. -/
def c5Declarator : JNode :=
  .mk { ntype := .VariableDeclarator, id := some { name := some "x" } }
    [identN, c5Fn]

/-- The program root of the C5 example:
`var x = function() { return a || b; };`. -/
def c5Program : JNode :=
  .mk { ntype := .Program }
    [.mk { ntype := .other "VariableDeclaration" } [c5Declarator]]

/-- The member chain `a.b` (object side of `a.b.c`). -/
def abcObject : MemberTree := .member (.leaf (some "a")) { name := some "b" }

/-- The assignment-expression node of `a.b.c = function() {}`, as the
parent of the assigned function. -/
def abcParent : NodeData :=
  { ntype := .AssignmentExpression,
    left := some (.member abcObject { name := some "c" }) }

/-- The record of the anonymous function in `a.b.c = function() {}`. -/
def abcRecord : Context :=
  Context.mk { ntype := .FunctionExpression, context := true } (some abcParent) [] 3 1

/-- A record whose parent node is an assignment to a computed member with
the falsy literal property `0`, such as `a[0] = function() {}`. -/
def c6Record : Context :=
  Context.mk { ntype := .FunctionExpression, context := true }
    (some { ntype := .AssignmentExpression,
            left := some (.member (.leaf (some "a")) { value := some (.num 0) }) })
    [] 0 1

/-- A record of an anonymous function whose parent node is a malformed
variable declarator that lacks its `id` field. -/
def c9Record : Context :=
  Context.mk { ntype := .FunctionExpression, context := true }
    (some { ntype := .VariableDeclarator })
    [] 0 1

/-- A record of an anonymous function whose parent node carries no type at
all: no signature rule matches it. -/
def c9OkRecord : Context :=
  Context.mk { ntype := .FunctionExpression, context := true }
    (some { ntype := .undef })
    [] 0 1

/-- A two-scope program used as a concrete analysis run: the root and one
anonymous function expression directly below it. -/
def c7Program : JNode :=
  .mk { ntype := .Program } [.mk { ntype := .FunctionExpression } [blockN []]]

/-- Each child record lies exactly one nesting level below its parent
record. -/
def childDepthStep (c : Context) : Prop :=
  ∀ ch ∈ c.children, ch.depth = c.depth + 1

/-- Folding addition over a list from an initial value yields the initial
value plus the list sum (the reduce inside Context.prototype.score). -/
theorem foldl_add_sum (l : List Int) (s : Int) : l.foldl (· + ·) s = s + l.sum := by
  induction l generalizing s with
  | nil => simp
  | cons a t ih => simp [List.foldl_cons, ih, List.sum_cons]; ring

/-- The scoreMap helper is the pointwise map of Context.score. -/
theorem scoreMap_eq (l : List Context) : Context.scoreMap l = l.map Context.score := by
  induction l with
  | nil => rfl
  | cons c t ih => simp [Context.scoreMap, ih]

/-- C1: for every scope record, score() returns the record's local score
plus the recursively computed score() of every child in children, summed.
The statement quantifies over all records, so it holds to arbitrary
nesting depth; score is a plain recursive function of the record with no
cache field, so every call recomputes it. -/
theorem c1_score_recursive (r : Context) :
    r.score = r.localScore + (r.children.map Context.score).sum := by
  cases r with
  | mk n p cs s d =>
    simp [Context.score, Context.localScore, Context.children, scoreMap_eq,
      foldl_add_sum]

/-- C2: analyzing the tree of
`function foo() { if (a) { bar(); } else { baz(); } }` yields exactly the
root record and the foo record; the function weight 3 lands in the root
record's local score (the rules run before the new scope is pushed), the
foo record's local and rolled-up score are both 10+10+1+1 = 22, the
root's rolled-up score is 3+22, and foo's signature resolves to "foo". -/
theorem c2_example_run :
    (Analyzer.analyzeRecords (some c2Program)).map Context.localScore =
      [Analyzer.score.fn, 2 * Analyzer.score.branch + 2 * Analyzer.score.call] ∧
    (Analyzer.analyzeRecords (some c2Program)).map Context.score =
      [Analyzer.score.fn + (2 * Analyzer.score.branch + 2 * Analyzer.score.call),
        2 * Analyzer.score.branch + 2 * Analyzer.score.call] ∧
    (Analyzer.analyzeRecords (some c2Program)).map Context.signature =
      [.ok "*", .ok "foo"] :=
  ⟨by decide, by decide, rfl⟩

/-- C3: the dispatch adds exactly one branch weight for an if-statement
without an alternate branch and exactly two branch weights when an
alternate branch is present. -/
theorem c3_if_weight (d : NodeData) (h : d.ntype = .IfStatement) :
    Analyzer.process d =
      if d.alternate then 2 * Analyzer.score.branch else Analyzer.score.branch := by
  obtain ⟨nt, i, alt, cl, op, l, ln, cx⟩ := d
  simp only at h
  subst h
  cases alt <;> simp [Analyzer.process, Analyzer.addIf, Analyzer.score]

/-- C3 witness: the if-statement amounts at the two concrete shapes. -/
theorem c3_if_weight_witness :
    Analyzer.process { ntype := .IfStatement, alternate := true } =
      2 * Analyzer.score.branch ∧
    Analyzer.process { ntype := .IfStatement } = Analyzer.score.branch := by
  constructor
  · simpa using c3_if_weight { ntype := .IfStatement, alternate := true } rfl
  · simpa using c3_if_weight { ntype := .IfStatement } rfl

/-- C4: the dispatch adds the branchEmpty weight for a switch case with an
empty consequent list and the full branch weight when the list has at
least one statement. -/
theorem c4_case_weight (d : NodeData) (h : d.ntype = .SwitchCase) :
    Analyzer.process d =
      if d.consequentLen = 0 then Analyzer.score.branchEmpty
      else Analyzer.score.branch := by
  obtain ⟨nt, i, alt, cl, op, l, ln, cx⟩ := d
  simp only at h
  subst h
  by_cases hc : cl = 0 <;>
    simp [Analyzer.process, Analyzer.addCase, Analyzer.score, hc]

/-- C4 witness: the switch-case amounts at an empty and a three-statement
consequent list. -/
theorem c4_case_weight_witness :
    Analyzer.process { ntype := .SwitchCase } = Analyzer.score.branchEmpty ∧
    Analyzer.process { ntype := .SwitchCase, consequentLen := 3 } =
      Analyzer.score.branch := by
  constructor
  · simpa using c4_case_weight { ntype := .SwitchCase } rfl
  · simpa using c4_case_weight { ntype := .SwitchCase, consequentLen := 3 } rfl

/-- C5: analyzing `var x = function() { return a || b; }` yields the root
record and the inner record; the inner record's signature resolves to "x"
through the variable-declarator rule and its local score is exactly one
branch weight (the logical OR); a logical AND adds nothing while a
logical OR adds exactly one branch weight. -/
theorem c5_example_run :
    (Analyzer.analyzeRecords (some c5Program)).map Context.signature =
      [.ok "*", .ok "x"] ∧
    ((Analyzer.analyzeRecords (some c5Program)).map Context.vardec)[1]? =
      some (.ok (some "x")) ∧
    (Analyzer.analyzeRecords (some c5Program)).map Context.localScore =
      [Analyzer.score.fn, Analyzer.score.branch] ∧
    Analyzer.addLogical (some "&&") = 0 ∧
    Analyzer.addLogical (some "||") = Analyzer.score.branch :=
  ⟨rfl, rfl, by decide, by decide, by decide⟩

/-- C8: analyzing an absent tree is a no-op: no record is created, the
collector is never invoked, and no error path exists (the walk returns
before estraverse runs). -/
theorem c8_absent_tree :
    Analyzer.analyze none = ([], none) ∧ Analyzer.analyzeRecords none = [] :=
  ⟨rfl, rfl⟩

/-- The search closure flattens a member chain into its base object name
followed by its property entries, leftmost first. -/
theorem search_eq_flatten (o : MemberTree) :
    search o = chainBase o :: (chainProps o).map (fun q => some (propEntry q)) := by
  induction o with
  | leaf name => simp [search, chainBase, chainProps]
  | member ob pr ih => simp [search, chainBase, chainProps, ih]

/-- C6 counterexample: for the assignment target `a[0]` the property is a
resolvable literal whose value is 0, yet the derived signature is "a.?"
and not the "a.0" the claim's segment rule produces, because the code
falls back to "?" on any falsy property value, not only on unresolvable
ones. -/
theorem c6_counterexample :
    c6Record.signature = .ok "a.?" ∧
    specPath (.leaf (some "a")) { value := some (.num 0) } = "a.0" ∧
    ("a.?" : String) ≠ "a.0" :=
  ⟨rfl, rfl, by decide⟩

/-- C6 as amended: for a record whose parent node is an assignment
expression, a simple identifier target with a nonempty name is returned
directly, and a member-chain target yields the dotted path whose segments
fall back from property name to literal value to "?" under JavaScript
truthiness; in particular the record of `a.b.c = function() {}` has
signature "a.b.c". -/
theorem c6_assignment_path (c : Context) (p : NodeData)
    (h1 : c.parent = some p) (h2 : p.ntype = .AssignmentExpression) :
    (∀ nm, p.left = some (.plain (some nm)) → nm ≠ "" →
      c.assignment = .ok (some nm)) ∧
    (∀ o pr, p.left = some (.member o pr) →
      c.assignment = .ok (some (specPathT o pr))) ∧
    abcRecord.signature = .ok "a.b.c" := by
  refine ⟨?_, ?_, rfl⟩
  · intro nm hl hnm
    simp [Context.assignment, h1, h2, hl, strTruthy, hnm]
  · intro o pr hl
    simp only [Context.assignment, h1, h2, hl]
    simp [specPathT, search_eq_flatten, jsJoin]

/-- C6 witness: the amended path rule applied to the record of
`a.b.c = function() {}`. -/
theorem c6_assignment_path_witness :
    abcRecord.assignment = .ok (some "a.b.c") := by
  have h := (c6_assignment_path abcRecord abcParent rfl rfl).2.1
    abcObject { name := some "c" } rfl
  rw [h]
  rfl

mutual
/-- The records a subtree contributes to the active scope all carry the
current stack length as depth, and every collected record's children lie
exactly one level below it. -/
theorem traverseNode_depth (n : JNode) (p : Option NodeData) (L : Nat) :
    (∀ c ∈ (Analyzer.traverseNode n p L).2.1, c.depth = L) ∧
    (∀ c ∈ (Analyzer.traverseNode n p L).2.2.1, childDepthStep c) := by
  cases n with
  | mk d cs =>
    by_cases h : Analyzer.isContext d.ntype = true
    · have ih := traverseList_depth cs (some d) (L + 1)
      constructor
      · intro c hc
        simp [Analyzer.traverseNode, h] at hc
        subst hc
        rfl
      · intro c hc
        simp [Analyzer.traverseNode, h] at hc
        rcases hc with hc | hc
        · subst hc
          intro ch hch
          have := ih.1 ch hch
          simp [Context.depth, Context.depthVal, Context.children] at this ⊢
          omega
        · exact ih.2 c hc
    · have ih := traverseList_depth cs (some d) L
      constructor
      · intro c hc
        simp [Analyzer.traverseNode, h] at hc
        exact ih.1 c hc
      · intro c hc
        simp [Analyzer.traverseNode, h] at hc
        exact ih.2 c hc

/-- Sibling-list version of the depth invariant. -/
theorem traverseList_depth (ns : List JNode) (p : Option NodeData) (L : Nat) :
    (∀ c ∈ (Analyzer.traverseList ns p L).2.1, c.depth = L) ∧
    (∀ c ∈ (Analyzer.traverseList ns p L).2.2.1, childDepthStep c) := by
  cases ns with
  | nil => simp [Analyzer.traverseList]
  | cons n rest =>
    have ihn := traverseNode_depth n p L
    have ihr := traverseList_depth rest p L
    constructor
    · intro c hc
      simp [Analyzer.traverseList] at hc
      rcases hc with hc | hc
      · exact ihn.1 c hc
      · exact ihr.1 c hc
    · intro c hc
      simp [Analyzer.traverseList] at hc
      rcases hc with hc | hc
      · exact ihn.2 c hc
      · exact ihr.2 c hc
end

/-- C7: in any run on a Program-rooted tree, the first record handed to
the collector is the root record and its depth() is 0, and every record
ever collected has all of its children at depth exactly one more than its
own (depths are assigned at record creation from the stack length and
never change afterwards). -/
theorem c7_depth (root : JNode) (h : root.data.ntype = .Program) :
    ((Analyzer.analyzeRecords (some root)).head?.map Context.depth) = some 0 ∧
    ∀ r ∈ Analyzer.analyzeRecords (some root), childDepthStep r := by
  cases root with
  | mk d cs =>
    have hP : d.ntype = .Program := h
    have hc : Analyzer.isContext d.ntype = true := by
      rw [hP]; decide
    constructor
    · simp [Analyzer.analyzeRecords, Analyzer.analyze, Analyzer.traverseNode, hc,
        Context.depth, Context.depthVal]
    · intro r hr
      have key := (traverseNode_depth (.mk d cs) none 0).2
      simp [Analyzer.analyzeRecords, Analyzer.analyze] at hr
      exact key r hr

/-- C7 witness: the depth facts at a concrete two-scope program. -/
theorem c7_depth_witness :
    ((Analyzer.analyzeRecords (some c7Program)).head?.map Context.depth) = some 0 ∧
    ∀ r ∈ Analyzer.analyzeRecords (some c7Program), childDepthStep r :=
  c7_depth c7Program rfl

/-- C9 counterexample: on the malformed input of a variable declarator
that lacks its id field, the vardec resolution step does not fall through
with an absent result; it raises, and so does signature(). -/
theorem c9_counterexample :
    c9Record.vardec = .error "TypeError" ∧
    c9Record.signature = .error "TypeError" :=
  ⟨rfl, rfl⟩

/-- C9 as amended: when the parent node is present and its type matches
neither the variable-declarator nor the assignment rule (an untyped
parent included), each resolution step returns an absent result and falls
through rather than raising: a missing function id makes the named step
absent, vardec and assignment return absent without raising, and when no
rule matches at all signature() resolves to "anonymous".  (With an absent
parent node, or a declarator parent missing its id, vardec raises
instead.) -/
theorem c9_fallthrough (c : Context) (p : NodeData)
    (h1 : c.parent = some p)
    (h2 : p.ntype ≠ .VariableDeclarator) (h3 : p.ntype ≠ .AssignmentExpression) :
    (c.node.id = none → c.named = none) ∧
    c.vardec = .ok none ∧
    c.assignment = .ok none ∧
    (c.node.ntype ≠ .Program → c.named = none → c.signature = .ok "anonymous") := by
  have hv : c.vardec = .ok none := by
    simp [Context.vardec, h1, h2]
  have ha : c.assignment = .ok none := by
    simp [Context.assignment, h1, h3]
  refine ⟨?_, hv, ha, ?_⟩
  · intro hid
    simp [Context.named, hid]
  · intro hP hn
    have hm : c.main = none := by
      simp [Context.main, hP]
    simp [Context.signature, hm, hn, hv, ha, strTruthy]

/-- C9 witness: a function record under an untyped parent node resolves to
"anonymous" without raising. -/
theorem c9_fallthrough_witness :
    c9OkRecord.signature = .ok "anonymous" := by
  have h := c9_fallthrough c9OkRecord { ntype := .undef } rfl
    (by decide) (by decide)
  exact h.2.2.2 (by decide) rfl

mutual
/-- The tree a subtree walk leaves behind is the claim-side marking. -/
theorem traverseNode_mark (n : JNode) (p : Option NodeData) (L : Nat) :
    (Analyzer.traverseNode n p L).2.2.2 = specMark n := by
  cases n with
  | mk d cs =>
    by_cases h : Analyzer.isContext d.ntype = true
    · simp [Analyzer.traverseNode, specMark, h,
        traverseList_mark cs (some d) (L + 1)]
    · simp [Analyzer.traverseNode, specMark, h,
        traverseList_mark cs (some d) L]

/-- Sibling-list version of the marking equation. -/
theorem traverseList_mark (ns : List JNode) (p : Option NodeData) (L : Nat) :
    (Analyzer.traverseList ns p L).2.2.2 = specMarkList ns := by
  cases ns with
  | nil => simp [Analyzer.traverseList, specMarkList]
  | cons n rest =>
    simp [Analyzer.traverseList, specMarkList, traverseNode_mark n p L,
      traverseList_mark rest p L]
end

/-- C10: on a freshly parsed Program-rooted tree — the only tree shape
the source-file collaborator hands over, and the domain on which the
embedding tracks the source exactly (elsewhere the source raises on the
first scoring node visited with an empty stack and aborts before the walk
completes) — the walk leaves the borrowed tree marked exactly as specMark
describes: every scope-defining node (function expression, function
declaration, program root — precisely the members of the contexts list)
gets context set to true, and no other field of any node changes; the
marked tree is what analyze hands back, so the marking persists after the
call. -/
theorem c10_marking (root : JNode) (_h : root.data.ntype = .Program) :
    Analyzer.analyzeTree (some root) = some (specMark root) ∧
    (∀ t : NType, Analyzer.isContext t = true ↔
      (t = .FunctionExpression ∨ t = .FunctionDeclaration ∨ t = .Program)) := by
  constructor
  · simp [Analyzer.analyzeTree, Analyzer.analyze, traverseNode_mark root none 0]
  · intro t
    cases t <;> simp [Analyzer.isContext, Analyzer.contexts]

/-- C10 witness: the marking equation at the concrete foo program. -/
theorem c10_marking_witness :
    Analyzer.analyzeTree (some c2Program) = some (specMark c2Program) :=
  (c10_marking c2Program rfl).1
